import Mathlib

/-!
Shallow embedding of the rendering/selection engine of the scatter-plot-matrix
repository (column utilities, selection hashing, spatial grid, data filtering,
per-column statistics, render cache keys), together with proofs checking the
natural-language specification against this code.

Numeric values are modelled as rationals; a JavaScript value whose numeric
coercion is non-finite (NaN or ±Infinity) is modelled as `none`.
-/

namespace Plotalizer

/-- A data row: the stable `__id` plus the named fields.  A field is stored as
`none` when its JavaScript numeric coercion `+row[col]` would be non-finite. -/
structure DataRow where
  id : ℕ
  vals : List (String × Option ℚ)
deriving DecidableEq, Repr

/-- `+d[col]` for a row: `some q` when the coercion is the finite number `q`,
`none` when the field is missing or coerces to a non-finite number. -/
def rowNum (d : DataRow) (c : String) : Option ℚ :=
  (d.vals.lookup c).join

/-- `ScaleType` from `types.ts`. -/
inductive ScaleType where
  | linear
  | log
deriving DecidableEq, Repr

/-- The string a `ScaleType` interpolates to in a template literal. -/
def ScaleType.str : ScaleType → String
  | .linear => "linear"
  | .log => "log"

/-- `Column` from `types.ts`. -/
structure Column where
  name : String
  scale : ScaleType
  visible : Bool
deriving DecidableEq, Repr

/-- `FilterMode` from `types.ts`. -/
inductive FilterMode where
  | highlight
  | filter
deriving DecidableEq, Repr

/-- The string a `FilterMode` interpolates to in a template literal. -/
def FilterMode.str : FilterMode → String
  | .highlight => "highlight"
  | .filter => "filter"

/-! ## `selectionUtils.ts` — `computeSelectedStateHash`

The JavaScript input is a `Set<number>`; it is modelled as the list of the
set's (distinct) elements in iteration order, which is what `Array.from`
produces. -/

/-- One step of the hash fold: `hash = (hash * prime + id) % mod` with
`prime = 31` and `mod = 2147483647`. -/
def hashStep (h : ℕ) (id : ℕ) : ℕ :=
  (h * 31 + id) % 2147483647

/-- `computeSelectedStateHash` from `src/src/utils/selectionUtils.ts`: the
empty set is the sentinel `"none"`; otherwise the ids are sorted ascending
(`Array.from(set).sort((a,b) => a-b)`), folded with `hashStep`, and the result
is `"<size>-<hash>"`. -/
def computeSelectedStateHash (selectedIds : List ℕ) : String :=
  if selectedIds.length = 0 then "none"
  else
    let sorted := selectedIds.insertionSort (· ≤ ·)
    let hash := sorted.foldl hashStep 0
    toString selectedIds.length ++ "-" ++ toString hash

/-- Reference definition, written from the spec's words (§4.4): "sort ids
ascending, fold with `hash = (hash*31 + id) mod M` for a large prime modulus
M, emit `\"<size>-<hash>\"`; the empty set is the sentinel `\"none\"`" — stated
directly on the set of ids. -/
def specSelectedStateHash (s : Finset ℕ) : String :=
  if s = ∅ then "none"
  else
    let sorted := s.sort (· ≤ ·)
    let hash := sorted.foldl hashStep 0
    toString s.card ++ "-" ++ toString hash

/-- The record returned by `mapVisibleColumns`; the two JavaScript `Map`s are
modelled as association lists with `List.lookup` as `Map.get` (keys are
inserted at most once, so first-match lookup agrees with `Map` semantics). -/
structure VisMaps where
  visibleColumns : List Column
  visibleIndexToOriginalIndex : List (ℕ × ℕ)
  originalIndexToVisibleIndex : List (ℕ × ℕ)
deriving DecidableEq, Repr

/-- One iteration of the `columns.forEach((col, originalIndex) => ...)` loop
in `mapVisibleColumns`. -/
def visStep (acc : VisMaps) (p : ℕ × Column) : VisMaps :=
  if p.2.visible then
    ⟨acc.visibleColumns ++ [p.2],
     acc.visibleIndexToOriginalIndex ++ [(acc.visibleColumns.length, p.1)],
     acc.originalIndexToVisibleIndex ++ [(p.1, acc.visibleColumns.length)]⟩
  else acc

/-- `mapVisibleColumns` from `src/src/utils/columnUtils.ts`. -/
def mapVisibleColumns (columns : List Column) : VisMaps :=
  columns.enum.foldl visStep ⟨[], [], []⟩

/-- Number of visible columns in a list (proof-side helper). -/
def countVis (cs : List Column) : ℕ :=
  (cs.filter (fun c => c.visible)).length

/-- Proof-side closed form of the `visibleIndex → originalIndex` pairs that
`mapVisibleColumns` accumulates, starting at original index `o` and visible
index `v`. -/
def pairsAux : List Column → ℕ → ℕ → List (ℕ × ℕ)
  | [], _, _ => []
  | c :: cs, o, v =>
    if c.visible then (v, o) :: pairsAux cs (o + 1) (v + 1)
    else pairsAux cs (o + 1) v

/-! ## `dataUtils.ts` — `filterData` -/

/-- The pair `{ filteredData, selectedData }` returned by `filterData`. -/
structure FilterResult where
  filteredData : List DataRow
  selectedData : List DataRow
deriving DecidableEq, Repr

/-- `filterData` from the data utilities: `selectedData` is the rows whose
`__id` is in the selected set; in `filter` mode with a non-empty selection the
`filteredData` is the selection, otherwise the whole input. -/
def filterData (data : List DataRow) (selectedIds : Finset ℕ)
    (filterMode : FilterMode) : FilterResult :=
  let selectedData := data.filter (fun d => d.id ∈ selectedIds)
  if filterMode = FilterMode.filter ∧ 0 < selectedIds.card then
    ⟨selectedData, selectedData⟩
  else
    ⟨data, selectedData⟩

/-! ## `columnUtils.ts` -/

/-- Stand-in for the `undefined` a JavaScript out-of-range array read yields;
all claims below stay within range, where it is never used. -/
def defaultColumn : Column :=
  ⟨"", ScaleType.linear, true⟩

/-- `reorderColumns`: copy the list, then
`[newColumns[dragIndex], newColumns[hoverIndex]] =
 [newColumns[hoverIndex], newColumns[dragIndex]]` — a swap of the two
positions, both right-hand sides read from the original list. -/
def reorderColumns (columns : List Column) (dragIndex hoverIndex : ℕ) : List Column :=
  (columns.set dragIndex (columns.getD hoverIndex defaultColumn)).set hoverIndex
    (columns.getD dragIndex defaultColumn)

/-- JavaScript `String.prototype.trim`: strip whitespace from both ends. -/
def jsTrim (s : String) : String :=
  ⟨((s.data.dropWhile Char.isWhitespace).reverse.dropWhile Char.isWhitespace).reverse⟩

/-- JavaScript `String.prototype.toLowerCase` (over the model's characters). -/
def jsToLower (s : String) : String :=
  ⟨s.data.map Char.toLower⟩

/-- JavaScript `String.prototype.includes`: substring containment. -/
def jsIncludes (s pat : String) : Bool :=
  s.data.tails.any (fun t => pat.data.isPrefixOf t)

/-- `sortColumnsByVisibility`: partition into visible then hidden, keeping
relative order; the source returns the original list object when no position
changed, which is value-equal to the partitioned list. -/
def sortColumnsByVisibility (columns : List Column) : List Column :=
  let visible := columns.filter (fun c => c.visible)
  let hidden := columns.filter (fun c => !c.visible)
  let sorted := visible ++ hidden
  if columns = sorted then columns else sorted

/-- `filterColumns` from `src/src/utils/columnUtils.ts`: trim and lower-case
the filter, mark every column visible when it is empty or its name contains
the filter, reuse the input objects when nothing changed, then move hidden
columns to the back. -/
def filterColumns (columns : List Column) (filter : String) : List Column :=
  let normalizedFilter := jsToLower (jsTrim filter)
  let shouldShowAll : Bool := normalizedFilter == ""
  let nextColumns := columns.map (fun col =>
    let shouldBeVisible : Bool :=
      shouldShowAll || jsIncludes (jsToLower col.name) normalizedFilter
    if col.visible = shouldBeVisible then col
    else ⟨col.name, col.scale, shouldBeVisible⟩)
  let didChange := columns.any (fun col =>
    let shouldBeVisible : Bool :=
      shouldShowAll || jsIncludes (jsToLower col.name) normalizedFilter
    !(col.visible == shouldBeVisible))
  let updatedColumns := if didChange then nextColumns else columns
  sortColumnsByVisibility updatedColumns

/-! ## `selectionUtils.ts` / `groupUtils.ts` — spatial grid

Screen coordinates are rationals; scales are arbitrary (finite-valued)
functions `ℚ → ℚ`.  The grid is the function from cell index to bucket
contents; `createSpatialGrid` only ever fills indices inside
`[0, gridSize) × [0, gridSize)`. -/

/-- `intRangeGo k n` is the list `[k, k+1, ..., k+n-1]`. -/
def intRangeGo : ℤ → ℕ → List ℤ
  | _, 0 => []
  | k, n + 1 => k :: intRangeGo (k + 1) n

/-- The inclusive integer range `[a, b]` traversed by the brush loops. -/
def intRange (a b : ℤ) : List ℤ :=
  intRangeGo a (b + 1 - a).toNat

/-- Body of the `data.forEach` loop in `createSpatialGrid`: coerce the two
fields (skip on a non-finite coercion), project through the scales, take
`Math.floor(screen / size * gridSize)` for both axes, and push the row into
the bucket only when both indices already lie inside `[0, gridSize)`. -/
def gridInsert (xScale yScale : ℚ → ℚ) (xCol yCol : String) (size : ℚ)
    (gridSize : ℤ) (grid : ℤ × ℤ → List DataRow) (d : DataRow) :
    ℤ × ℤ → List DataRow :=
  match rowNum d xCol, rowNum d yCol with
  | some x, some y =>
    if 0 ≤ ⌊xScale x / size * (gridSize : ℚ)⌋ ∧
        ⌊xScale x / size * (gridSize : ℚ)⌋ < gridSize ∧
        0 ≤ ⌊yScale y / size * (gridSize : ℚ)⌋ ∧
        ⌊yScale y / size * (gridSize : ℚ)⌋ < gridSize then
      fun c =>
        if c = (⌊xScale x / size * (gridSize : ℚ)⌋,
                ⌊yScale y / size * (gridSize : ℚ)⌋) then
          grid c ++ [d]
        else grid c
    else grid
  | _, _ => grid

/-- `createSpatialGrid` from `src/src/utils/groupUtils.ts` (the version in
`ScatterPlotMatrix.tsx` is identical up to naming): fold the insertion loop
over the data, starting from the all-empty grid. -/
def createSpatialGrid (data : List DataRow) (xScale yScale : ℚ → ℚ)
    (xCol yCol : String) (size : ℚ) (gridSize : ℤ) : ℤ × ℤ → List DataRow :=
  data.foldl (gridInsert xScale yScale xCol yCol size gridSize) (fun _ => [])

/-- The exact per-row test both the brush query and the brute-force reference
apply: the row is accepted (yielding its `__id`) iff both numeric coercions
are finite and the projected screen position lies inside the rectangle; a
non-finite coercion makes every JavaScript comparison false, hence `none`. -/
def rectTest (xScale yScale : ℚ → ℚ) (x0 y0 x1 y1 : ℚ) (xCol yCol : String)
    (d : DataRow) : Option ℕ :=
  match rowNum d xCol, rowNum d yCol with
  | some x, some y =>
    if x0 ≤ xScale x ∧ xScale x ≤ x1 ∧ y0 ≤ yScale y ∧ yScale y ≤ y1 then
      some d.id
    else none
  | _, _ => none

/-- `getPointsInBrush` from `src/src/utils/groupUtils.ts`: clamp the brush
rectangle to a bucket range (`floor`/`ceil`, clamped to `[0, gridSize-1]`),
scan only those buckets, and re-test each candidate row exactly, collecting
the selected `__id`s into a set. -/
def getPointsInBrush (grid : ℤ × ℤ → List DataRow) (xScale yScale : ℚ → ℚ)
    (x0 y0 x1 y1 : ℚ) (xCol yCol : String) (size : ℚ) (gridSize : ℤ) :
    Finset ℕ :=
  let startGX := max 0 ⌊x0 / size * (gridSize : ℚ)⌋
  let endGX := min (gridSize - 1) ⌈x1 / size * (gridSize : ℚ)⌉
  let startGY := max 0 ⌊y0 / size * (gridSize : ℚ)⌋
  let endGY := min (gridSize - 1) ⌈y1 / size * (gridSize : ℚ)⌉
  ((intRange startGX endGX).flatMap (fun gx =>
    (intRange startGY endGY).flatMap (fun gy =>
      (grid (gx, gy)).filterMap
        (rectTest xScale yScale x0 y0 x1 y1 xCol yCol)))).toFinset

/-- The bucket a row lands in, if any: `none` when a coercion is non-finite
or the floor indices fall outside `[0, gridSize)` (the build loop skips such
rows rather than clamping them). -/
def gridIndexOf (xScale yScale : ℚ → ℚ) (xCol yCol : String) (size : ℚ)
    (gridSize : ℤ) (d : DataRow) : Option (ℤ × ℤ) :=
  match rowNum d xCol, rowNum d yCol with
  | some x, some y =>
    if 0 ≤ ⌊xScale x / size * (gridSize : ℚ)⌋ ∧
        ⌊xScale x / size * (gridSize : ℚ)⌋ < gridSize ∧
        0 ≤ ⌊yScale y / size * (gridSize : ℚ)⌋ ∧
        ⌊yScale y / size * (gridSize : ℚ)⌋ < gridSize then
      some (⌊xScale x / size * (gridSize : ℚ)⌋,
            ⌊yScale y / size * (gridSize : ℚ)⌋)
    else none
  | _, _ => none

/-- Reference definition from the spec (§8): the brute-force scan — every row
whose projected screen position is finite and lies inside the rectangle. -/
def bruteForceFilter (data : List DataRow) (xScale yScale : ℚ → ℚ)
    (x0 y0 x1 y1 : ℚ) (xCol yCol : String) : Finset ℕ :=
  (data.filterMap (rectTest xScale yScale x0 y0 x1 y1 xCol yCol)).toFinset

/-! ## `computeStatsForSubset` (statistics builder)

The running `min`/`max`/`minPositive` start at `±Infinity`; the sentinel is
modelled as `none`, so every JavaScript comparison against the sentinel (which
is always true for the first finite value) is the `none` branch. -/

/-- The `{ min, max, minPositive }` record. -/
structure ColumnStats where
  min : ℚ
  max : ℚ
  minPositive : ℚ
deriving DecidableEq, Repr

/-- `if (value < min) min = value`, with `min` starting at `Infinity`. -/
def updMin : Option ℚ → ℚ → Option ℚ
  | none, v => some v
  | some m, v => if v < m then some v else some m

/-- `if (value > max) max = value`, with `max` starting at `-Infinity`. -/
def updMax : Option ℚ → ℚ → Option ℚ
  | none, v => some v
  | some m, v => if v > m then some v else some m

/-- `if (value > 0 && value < minPositive) minPositive = value`, with
`minPositive` starting at `Infinity`. -/
def updPos (acc : Option ℚ) (v : ℚ) : Option ℚ :=
  if v > 0 then
    match acc with
    | none => some v
    | some p => if v < p then some v else some p
  else acc

/-- One finite value folded into the three running statistics. -/
def scanStep (acc : Option ℚ × Option ℚ × Option ℚ) (v : ℚ) :
    Option ℚ × Option ℚ × Option ℚ :=
  (updMin acc.1 v, updMax acc.2.1 v, updPos acc.2.2 v)

/-- The `for (const row of rows)` scan of one column: non-finite coercions are
skipped, finite ones update the three running statistics. -/
def rowScan (rows : List DataRow) (name : String) :
    Option ℚ × Option ℚ × Option ℚ :=
  rows.foldl (fun acc row =>
    match rowNum row name with
    | none => acc
    | some v => scanStep acc v) (none, none, none)

/-- The finite numeric coercions of one column over a row subset. -/
def finiteVals (rows : List DataRow) (name : String) : List ℚ :=
  rows.filterMap (fun r => rowNum r name)

/-- The per-column body of `computeStatsForSubset`: run the scan, then apply
the normalization — `Infinity` min becomes 0, `-Infinity` max becomes 1, an
`Infinity` minPositive falls back to `max > 0 ? max : 1` (guarded once more by
`fallback > 0 ? fallback : 1e-9`), and a degenerate `min == max` is padded to
`min-1, max+1`. -/
def colStat (rows : List DataRow) (name : String) : ColumnStats :=
  let scan := rowScan rows name
  let min0 : ℚ := match scan.1 with | none => 0 | some m => m
  let max0 : ℚ := match scan.2.1 with | none => 1 | some m => m
  let minPositive : ℚ :=
    match scan.2.2 with
    | some p => p
    | none =>
      let fallback := if max0 > 0 then max0 else 1
      if fallback > 0 then fallback else 1 / 1000000000
  if min0 = max0 then ⟨min0 - 1, max0 + 1, minPositive⟩
  else ⟨min0, max0, minPositive⟩

/-- `computeStatsForSubset` from the statistics module: empty rows or empty
column list short-circuit to `{0, 1, 1}` per column. -/
def computeStatsForSubset (rows : List DataRow) (columnNames : List String) :
    List (String × ColumnStats) :=
  if rows.length = 0 ∨ columnNames.length = 0 then
    columnNames.map (fun name => (name, ⟨0, 1, 1⟩))
  else
    columnNames.map (fun name => (name, colStat rows name))

/-! ## Render cache key (`ScatterPlotMatrix.tsx`) -/

/-- `dataStateHash` (`ScatterPlotMatrix.tsx` lines 225-230): `"empty"` for no
data, otherwise `"<length>-<firstId>-<lastId>"` with missing ids defaulting
to 0. -/
def dataStateHash (data : List DataRow) : String :=
  if data.length = 0 then "empty"
  else
    toString data.length ++ "-" ++ toString ((data.head?.map DataRow.id).getD 0)
      ++ "-" ++ toString ((data.getLast?.map DataRow.id).getD 0)

/-- The template literal at `ScatterPlotMatrix.tsx:434`:
`` `${colX.name}-${colY.name}-${colX.scale}-${colY.scale}-${filterMode}-${dataStateHash}-${selectedStateHash}` ``
— seven components, no cell pixel size. -/
def renderKey (colX colY : Column) (filterMode : FilterMode)
    (dataHash selectedHash : String) : String :=
  colX.name ++ "-" ++ colY.name ++ "-" ++ colX.scale.str ++ "-" ++
    colY.scale.str ++ "-" ++ filterMode.str ++ "-" ++ dataHash ++ "-" ++
    selectedHash

/-- The composite key the component computes for a plot cell from its state;
`size` (the cell pixel size) is in scope at the computation site but unused
by it. -/
def cellRenderKey (colX colY : Column) (filterMode : FilterMode)
    (data : List DataRow) (selectedIds : List ℕ) (_size : ℚ) : String :=
  renderKey colX colY filterMode (dataStateHash data)
    (computeSelectedStateHash selectedIds)

/-- Reference definition from the spec (§6): the eight-component cache key
format
`"<xColumnName>-<yColumnName>-<xScaleKind>-<yScaleKind>-<filterMode>-<dataFingerprint>-<selectionFingerprint>-<cellPixelSize>"`. -/
def specRenderKey (colX colY : Column) (filterMode : FilterMode)
    (dataFingerprint selectionFingerprint : String) (cellPixelSize : ℕ) : String :=
  colX.name ++ "-" ++ colY.name ++ "-" ++ colX.scale.str ++ "-" ++
    colY.scale.str ++ "-" ++ filterMode.str ++ "-" ++ dataFingerprint ++ "-" ++
    selectionFingerprint ++ "-" ++ toString cellPixelSize

end Plotalizer

namespace Plotalizer

/-! ## Helper lemmas -/

/-- Writing back the element already at a position leaves a list unchanged. -/
theorem set_getD_self {α : Type} (l : List α) (n : ℕ) (d : α) (h : n < l.length) :
    l.set n (l.getD n d) = l := by
  apply List.ext_getElem?
  intro m
  rw [List.getElem?_set]
  by_cases hm : n = m
  · subst hm
    rw [if_pos rfl, if_pos h, List.getD_eq_getElem?_getD,
      List.getElem?_eq_getElem h]
    rfl
  · rw [if_neg hm]

/-- For a duplicate-free id list, the engine's sort of the iteration order
agrees with sorting the underlying finite set. -/
theorem insertionSort_eq_finset_sort (ids : List ℕ) (h : ids.Nodup) :
    ids.insertionSort (· ≤ ·) = ids.toFinset.sort (· ≤ ·) := by
  have hp : List.Perm (ids.insertionSort (· ≤ ·)) (ids.toFinset.sort (· ≤ ·)) :=
    (ids.perm_insertionSort (· ≤ ·)).trans
      (((Finset.sort_perm_toList (· ≤ ·) ids.toFinset).trans
        (List.toFinset_toList h)).symm)
  exact List.eq_of_perm_of_sorted hp
    (List.sorted_insertionSort (· ≤ ·) ids)
    (Finset.sort_sorted (· ≤ ·) ids.toFinset)

/-- The hash fold stays below the modulus. -/
theorem foldl_hashStep_lt (l : List ℕ) :
    ∀ h₀ : ℕ, h₀ < 2147483647 → l.foldl hashStep h₀ < 2147483647 := by
  induction l with
  | nil => intro h₀ hh; simpa using hh
  | cons a l ih =>
    intro h₀ _
    exact ih (hashStep h₀ a) (Nat.mod_lt _ (by norm_num))

/-- A `"<n>-<m>"` string is never the sentinel `"none"`. -/
theorem numDashNum_ne_none (n m : ℕ) :
    toString n ++ "-" ++ toString m ≠ "none" := by
  intro h
  have hmem : '-' ∈ (toString n ++ "-" ++ toString m).data := by
    rw [String.data_append, String.data_append]
    simp [show ("-" : String).data = ['-'] from rfl]
  rw [h] at hmem
  simp at hmem

/-- `jsToLower` of the empty string. -/
theorem jsToLower_empty : jsToLower "" = "" := rfl

/-- On an all-visible list the visibility partition is the identity. -/
theorem sortColumnsByVisibility_allVisible (l : List Column)
    (h : ∀ c ∈ l, c.visible = true) :
    sortColumnsByVisibility l = l := by
  unfold sortColumnsByVisibility
  have h1 : l.filter (fun c => c.visible) = l :=
    List.filter_eq_self.mpr (by intro a ha; simpa using h a ha)
  have h2 : l.filter (fun c => !c.visible) = [] :=
    List.filter_eq_nil_iff.mpr (by intro a ha; simp [h a ha])
  simp only [h1, h2, List.append_nil]
  simp

/-- Making already-visible columns visible changes nothing. -/
theorem map_makeVisible_of_allVisible (l : List Column)
    (h : ∀ c ∈ l, c.visible = true) :
    l.map (fun c => (⟨c.name, c.scale, true⟩ : Column)) = l := by
  have hmap : l.map (fun c => (⟨c.name, c.scale, true⟩ : Column)) = l.map id := by
    apply List.map_congr_left
    intro c hc
    cases c with
    | mk n s v =>
      have hv : v = true := h ⟨n, s, v⟩ hc
      rw [hv]
      rfl
  rw [hmap, List.map_id]

/-- A same-index `reorderColumns` swap leaves the list unchanged. -/
theorem reorderColumns_same (l : List Column) (n : ℕ) (hn : n < l.length) :
    reorderColumns l n n = l := by
  unfold reorderColumns
  rw [List.set_set, set_getD_self l n defaultColumn hn]

end Plotalizer

namespace Plotalizer

/-! ## Claim theorems for the selection hasher and data filter -/

/-- C9: swapping columns `i, j` and then `j, i` restores the original order,
and swapping with `i == j` is a no-op. -/
theorem reorderColumns_roundTrip (columns : List Column) (i j : ℕ)
    (hi : i < columns.length) (hj : j < columns.length) :
    reorderColumns (reorderColumns columns i j) j i = columns ∧
    reorderColumns columns i i = columns := by
  refine ⟨?_, reorderColumns_same columns i hi⟩
  by_cases hij : i = j
  · subst hij
    rw [reorderColumns_same columns i hi, reorderColumns_same columns i hi]
  · have hA : ((columns.set i (columns.getD j defaultColumn)).set j
        (columns.getD i defaultColumn)).getD i defaultColumn =
        columns.getD j defaultColumn := by
      rw [List.getD_eq_getElem?_getD, List.getElem?_set_ne (Ne.symm hij),
        List.getElem?_set_self (by simpa using hi)]
      rfl
    have hB : ((columns.set i (columns.getD j defaultColumn)).set j
        (columns.getD i defaultColumn)).getD j defaultColumn =
        columns.getD i defaultColumn := by
      rw [List.getD_eq_getElem?_getD, List.getElem?_set_self (by simpa using hj)]
      rfl
    have hmid : (columns.set i (columns.getD j defaultColumn)).getD j defaultColumn =
        columns.getD j defaultColumn := by
      rw [List.getD_eq_getElem?_getD, List.getElem?_set_ne hij,
        ← List.getD_eq_getElem?_getD]
    have h2 : (columns.set i (columns.getD j defaultColumn)).set j
        (columns.getD j defaultColumn) =
        columns.set i (columns.getD j defaultColumn) := by
      apply List.ext_getElem?
      intro m
      rw [List.getElem?_set]
      by_cases hm : j = m
      · subst hm
        rw [if_pos rfl, if_pos (by simpa using hj), List.getElem?_set_ne hij,
          List.getD_eq_getElem?_getD, List.getElem?_eq_getElem hj]
        rfl
      · rw [if_neg hm]
    show reorderColumns
      ((columns.set i (columns.getD j defaultColumn)).set j
        (columns.getD i defaultColumn)) j i = columns
    unfold reorderColumns
    rw [hA, hB, List.set_set, h2, List.set_set,
      set_getD_self columns i defaultColumn hi]

/-- C8 counterexample: with the empty filter string, a hidden column is made
visible, so the returned list is not the input list — the claim's "regardless
of the visibility flags" fails. -/
theorem filterColumns_blank_counterexample :
    filterColumns [⟨"a", ScaleType.linear, false⟩] "" ≠
      [⟨"a", ScaleType.linear, false⟩] ∧
    filterColumns [⟨"a", ScaleType.linear, false⟩] "" =
      [⟨"a", ScaleType.linear, true⟩] := by
  exact ⟨by decide, by decide⟩

/-- C8 amended: with an empty or whitespace-only filter string,
`filterColumns` returns the input columns with every column made visible, and
in particular returns the input unchanged when every column is already
visible. -/
theorem filterColumns_blank (columns : List Column) (filter : String)
    (hblank : jsTrim filter = "") :
    filterColumns columns filter =
      columns.map (fun c => ⟨c.name, c.scale, true⟩) ∧
    ((∀ c ∈ columns, c.visible = true) → filterColumns columns filter = columns) := by
  have key : filterColumns columns filter =
      columns.map (fun c => ⟨c.name, c.scale, true⟩) := by
    simp only [filterColumns, hblank, jsToLower_empty, beq_self_eq_true,
      Bool.true_or]
    have hmap : columns.map (fun col =>
        if col.visible = true then col
        else ⟨col.name, col.scale, true⟩) =
        columns.map (fun c => ⟨c.name, c.scale, true⟩) := by
      apply List.map_congr_left
      intro c _
      cases c with
      | mk n s v => cases v <;> simp
    by_cases hd : columns.any (fun col => !(col.visible == true)) = true
    · rw [if_pos hd, hmap]
      apply sortColumnsByVisibility_allVisible
      intro c hc
      rcases List.mem_map.mp hc with ⟨c2, _, rfl⟩
      rfl
    · rw [if_neg hd]
      have hall : ∀ c ∈ columns, c.visible = true := by
        intro c hc
        have := List.any_eq_false.mp (Bool.eq_false_iff.mpr hd) c hc
        simpa using this
      rw [sortColumnsByVisibility_allVisible columns hall,
        map_makeVisible_of_allVisible columns hall]
  refine ⟨key, fun hall => ?_⟩
  rw [key, map_makeVisible_of_allVisible columns hall]

/-- Witness for C8's amended claim on a whitespace-only filter: a hidden
column is made visible, and an all-visible list is returned unchanged. -/
theorem filterColumns_blank_witness :
    filterColumns [⟨"a", ScaleType.linear, false⟩, ⟨"b", ScaleType.log, true⟩] "  " =
      [⟨"a", ScaleType.linear, true⟩, ⟨"b", ScaleType.log, true⟩] ∧
    filterColumns [⟨"c", ScaleType.linear, true⟩] " " =
      [⟨"c", ScaleType.linear, true⟩] :=
  ⟨((filterColumns_blank
      [⟨"a", ScaleType.linear, false⟩, ⟨"b", ScaleType.log, true⟩] "  "
      (by decide)).1).trans (by decide),
   (filterColumns_blank [⟨"c", ScaleType.linear, true⟩] " "
      (by decide)).2 (by decide)⟩

/-- Witness for C9 on a concrete three-column list at indices 0 and 2. -/
theorem reorderColumns_roundTrip_witness :
    reorderColumns (reorderColumns
      [⟨"a", ScaleType.linear, true⟩, ⟨"b", ScaleType.log, true⟩,
       ⟨"c", ScaleType.linear, false⟩] 0 2) 2 0 =
      [⟨"a", ScaleType.linear, true⟩, ⟨"b", ScaleType.log, true⟩,
       ⟨"c", ScaleType.linear, false⟩] ∧
    reorderColumns
      [⟨"a", ScaleType.linear, true⟩, ⟨"b", ScaleType.log, true⟩,
       ⟨"c", ScaleType.linear, false⟩] 0 0 =
      [⟨"a", ScaleType.linear, true⟩, ⟨"b", ScaleType.log, true⟩,
       ⟨"c", ScaleType.linear, false⟩] :=
  reorderColumns_roundTrip
    [⟨"a", ScaleType.linear, true⟩, ⟨"b", ScaleType.log, true⟩,
     ⟨"c", ScaleType.linear, false⟩] 0 2 (by decide) (by decide)

/-- C3: `computeSelectedStateHash` equals the reference definition written from
the spec (empty set ↦ `"none"`, otherwise `"<size>-<hash>"` with the fold hash
over the ids sorted ascending), so any two duplicate-free id sequences with the
same membership hash identically. -/
theorem computeSelectedStateHash_eq_spec (ids : List ℕ) (h : ids.Nodup) :
    computeSelectedStateHash ids = specSelectedStateHash ids.toFinset ∧
    ∀ ids2 : List ℕ, ids2.Nodup → ids.toFinset = ids2.toFinset →
      computeSelectedStateHash ids = computeSelectedStateHash ids2 := by
  have main : ∀ l : List ℕ, l.Nodup →
      computeSelectedStateHash l = specSelectedStateHash l.toFinset := by
    intro l hl
    unfold computeSelectedStateHash specSelectedStateHash
    rcases eq_or_ne l [] with rfl | hne
    · simp
    · have hlen : l.length ≠ 0 := by simpa using hne
      have hfin : l.toFinset ≠ ∅ := by
        simpa [List.toFinset_eq_empty_iff] using hne
      rw [if_neg hlen, if_neg hfin, insertionSort_eq_finset_sort l hl,
        List.toFinset_card_of_nodup hl]
  refine ⟨main ids h, fun ids2 h2 hset => ?_⟩
  rw [main ids h, main ids2 h2, hset]

/-- Witness for C3 at the spec's own fixture `{7,3,11,5}` vs `{5,11,3,7}`. -/
theorem computeSelectedStateHash_eq_spec_witness :
    computeSelectedStateHash [7, 3, 11, 5] =
      specSelectedStateHash ([7, 3, 11, 5] : List ℕ).toFinset ∧
    computeSelectedStateHash [7, 3, 11, 5] = computeSelectedStateHash [5, 11, 3, 7] :=
  ⟨(computeSelectedStateHash_eq_spec [7, 3, 11, 5] (by decide)).1,
   (computeSelectedStateHash_eq_spec [7, 3, 11, 5] (by decide)).2
     [5, 11, 3, 7] (by decide) (by decide)⟩

/-- C10: on a non-empty id set the hash is `"<size>-<hash>"` with size ≥ 1 and
hash below the modulus; in particular it is never the sentinel `"none"`. -/
theorem computeSelectedStateHash_nonempty_form (ids : List ℕ) (h : ids ≠ []) :
    computeSelectedStateHash ids =
      toString ids.length ++ "-" ++
        toString ((ids.insertionSort (· ≤ ·)).foldl hashStep 0) ∧
    1 ≤ ids.length ∧
    (ids.insertionSort (· ≤ ·)).foldl hashStep 0 ≤ 2147483646 ∧
    computeSelectedStateHash ids ≠ "none" := by
  have hlen : ids.length ≠ 0 := by simpa using h
  have hform : computeSelectedStateHash ids =
      toString ids.length ++ "-" ++
        toString ((ids.insertionSort (· ≤ ·)).foldl hashStep 0) := by
    unfold computeSelectedStateHash
    rw [if_neg hlen]
  refine ⟨hform, by omega, ?_, ?_⟩
  · have := foldl_hashStep_lt (ids.insertionSort (· ≤ ·)) 0 (by norm_num)
    omega
  · rw [hform]; exact numDashNum_ne_none _ _

/-- Witness for C10 at the singleton selection `{42}`. -/
theorem computeSelectedStateHash_nonempty_form_witness :
    computeSelectedStateHash [42] =
      toString (1 : ℕ) ++ "-" ++ toString (42 : ℕ) ∧
    computeSelectedStateHash [42] ≠ "none" := by
  have h := computeSelectedStateHash_nonempty_form [42] (by decide)
  exact ⟨by rw [h.1]; rfl, h.2.2.2⟩

/-- C6: `filterData` returns `selectedData` equal to the rows whose id is
selected (in input order), and `filteredData` equal to that same list exactly
when the mode is `filter` and the selection is non-empty, the unchanged input
otherwise. -/
theorem filterData_correct (data : List DataRow) (s : Finset ℕ) (mode : FilterMode) :
    (filterData data s mode).selectedData = data.filter (fun d => d.id ∈ s) ∧
    (filterData data s mode).filteredData =
      (if mode = FilterMode.filter ∧ s ≠ ∅ then
        data.filter (fun d => d.id ∈ s) else data) := by
  unfold filterData
  by_cases hc : mode = FilterMode.filter ∧ 0 < s.card
  · rw [if_pos hc, if_pos ⟨hc.1, by
      have := hc.2
      rw [Finset.card_pos] at this
      exact Finset.nonempty_iff_ne_empty.mp this⟩]
    exact ⟨rfl, rfl⟩
  · have hc' : ¬(mode = FilterMode.filter ∧ s ≠ ∅) := by
      intro hx
      exact hc ⟨hx.1, Finset.card_pos.mpr (Finset.nonempty_iff_ne_empty.mpr hx.2)⟩
    rw [if_neg hc, if_neg hc']
    exact ⟨rfl, rfl⟩

/-! ## `mapVisibleColumns` (C7) -/

/-- First-match lookup on an association list with duplicate-free keys agrees
with membership. -/
theorem assoc_lookup_eq_some (l : List (ℕ × ℕ)) (hnd : (l.map Prod.fst).Nodup)
    (k x : ℕ) : l.lookup k = some x ↔ (k, x) ∈ l := by
  induction l with
  | nil => simp
  | cons p l ih =>
    cases p with
    | mk a b =>
      simp only [List.map_cons, List.nodup_cons] at hnd
      rw [List.lookup_cons]
      by_cases hk : k = a
      · subst hk
        simp only [beq_self_eq_true, cond_true, Option.some.injEq, List.mem_cons,
          Prod.mk.injEq, true_and]
        constructor
        · intro h; exact Or.inl h.symm
        · rintro (h | h)
          · exact h.symm
          · exact absurd (List.mem_map_of_mem Prod.fst h) hnd.1
      · have hbeq : (k == a) = false := by simpa using hk
        rw [hbeq]
        simp only [cond_false]
        rw [ih hnd.2]
        simp only [List.mem_cons, Prod.mk.injEq]
        constructor
        · intro h; exact Or.inr h
        · rintro (⟨h1, _⟩ | h)
          · exact absurd h1 hk
          · exact h

/-- `countVis` over a cons with a visible head. -/
theorem countVis_cons_pos {c : Column} (cs : List Column) (hv : c.visible = true) :
    countVis (c :: cs) = countVis cs + 1 := by
  simp [countVis, List.filter_cons, hv]

/-- `countVis` over a cons with a hidden head. -/
theorem countVis_cons_neg {c : Column} (cs : List Column) (hv : c.visible = false) :
    countVis (c :: cs) = countVis cs := by
  simp [countVis, List.filter_cons, hv]

/-- Closed form of the `forEach` accumulation in `mapVisibleColumns`. -/
theorem foldl_visStep (cs : List Column) :
    ∀ (n : ℕ) (acc : VisMaps),
      (cs.enumFrom n).foldl visStep acc =
        ⟨acc.visibleColumns ++ cs.filter (fun c => c.visible),
         acc.visibleIndexToOriginalIndex ++
           pairsAux cs n acc.visibleColumns.length,
         acc.originalIndexToVisibleIndex ++
           (pairsAux cs n acc.visibleColumns.length).map Prod.swap⟩ := by
  induction cs with
  | nil =>
    intro n acc
    simp [pairsAux]
  | cons c cs ih =>
    intro n acc
    rw [List.enumFrom_cons, List.foldl_cons]
    by_cases hv : c.visible = true
    · rw [ih (n + 1) (visStep acc (n, c))]
      simp [visStep, hv, List.filter_cons, pairsAux, List.append_assoc]
    · have hv' : c.visible = false := by simpa using hv
      rw [ih (n + 1) (visStep acc (n, c))]
      simp [visStep, hv', List.filter_cons, pairsAux]

/-- `mapVisibleColumns` in closed form. -/
theorem mapVisibleColumns_eq (columns : List Column) :
    mapVisibleColumns columns =
      ⟨columns.filter (fun c => c.visible),
       pairsAux columns 0 0,
       (pairsAux columns 0 0).map Prod.swap⟩ := by
  unfold mapVisibleColumns
  rw [List.enum_eq_enumFrom, foldl_visStep]
  simp

/-- Every accumulated pair's components stay in their half-open ranges. -/
theorem pairsAux_mem_bounds (cs : List Column) :
    ∀ o v w u, (w, u) ∈ pairsAux cs o v →
      v ≤ w ∧ w < v + countVis cs ∧ o ≤ u ∧ u < o + cs.length := by
  induction cs with
  | nil =>
    intro o v w u h
    simp [pairsAux] at h
  | cons c cs ih =>
    intro o v w u h
    by_cases hv : c.visible = true
    · simp only [pairsAux] at h
      rw [if_pos hv] at h
      rw [countVis_cons_pos cs hv]
      rcases List.mem_cons.mp h with h1 | h2
      · rw [Prod.mk.injEq] at h1
        obtain ⟨rfl, rfl⟩ := h1
        simp only [List.length_cons]
        omega
      · have := ih (o + 1) (v + 1) w u h2
        simp only [List.length_cons]
        omega
    · have hv' : c.visible = false := by simpa using hv
      simp only [pairsAux] at h
      rw [if_neg (by simp [hv'])] at h
      have := ih (o + 1) v w u h
      rw [countVis_cons_neg cs hv']
      simp only [List.length_cons]
      omega

/-- The visible-index keys are duplicate-free. -/
theorem pairsAux_fst_nodup (cs : List Column) :
    ∀ o v, ((pairsAux cs o v).map Prod.fst).Nodup := by
  induction cs with
  | nil =>
    intro o v
    simp [pairsAux]
  | cons c cs ih =>
    intro o v
    by_cases hv : c.visible = true
    · simp only [pairsAux]
      rw [if_pos hv]
      simp only [List.map_cons, List.nodup_cons]
      refine ⟨?_, ih (o + 1) (v + 1)⟩
      intro hmem
      rcases List.mem_map.mp hmem with ⟨⟨w, u⟩, hm, hw⟩
      have := pairsAux_mem_bounds cs (o + 1) (v + 1) w u hm
      simp only at hw
      omega
    · have hv' : c.visible = false := by simpa using hv
      simp only [pairsAux]
      rw [if_neg (by simp [hv'])]
      exact ih (o + 1) v

/-- The original-index values are duplicate-free. -/
theorem pairsAux_snd_nodup (cs : List Column) :
    ∀ o v, ((pairsAux cs o v).map Prod.snd).Nodup := by
  induction cs with
  | nil =>
    intro o v
    simp [pairsAux]
  | cons c cs ih =>
    intro o v
    by_cases hv : c.visible = true
    · simp only [pairsAux]
      rw [if_pos hv]
      simp only [List.map_cons, List.nodup_cons]
      refine ⟨?_, ih (o + 1) (v + 1)⟩
      intro hmem
      rcases List.mem_map.mp hmem with ⟨⟨w, u⟩, hm, hw⟩
      have := pairsAux_mem_bounds cs (o + 1) (v + 1) w u hm
      simp only at hw
      omega
    · have hv' : c.visible = false := by simpa using hv
      simp only [pairsAux]
      rw [if_neg (by simp [hv'])]
      exact ih (o + 1) v

/-- Every visible index in range is a key. -/
theorem pairsAux_fst_total (cs : List Column) :
    ∀ o v w, v ≤ w → w < v + countVis cs → ∃ u, (w, u) ∈ pairsAux cs o v := by
  induction cs with
  | nil =>
    intro o v w h1 h2
    simp [countVis] at h2
    omega
  | cons c cs ih =>
    intro o v w h1 h2
    by_cases hv : c.visible = true
    · rw [countVis_cons_pos cs hv] at h2
      by_cases hw : w = v
      · subst hw
        refine ⟨o, ?_⟩
        simp only [pairsAux]
        rw [if_pos hv]
        exact List.mem_cons_self _ _
      · obtain ⟨u, hu⟩ := ih (o + 1) (v + 1) w (by omega) (by omega)
        refine ⟨u, ?_⟩
        simp only [pairsAux]
        rw [if_pos hv]
        exact List.mem_cons_of_mem _ hu
    · have hv' : c.visible = false := by simpa using hv
      rw [countVis_cons_neg cs hv'] at h2
      obtain ⟨u, hu⟩ := ih (o + 1) v w h1 h2
      refine ⟨u, ?_⟩
      simp only [pairsAux]
      rw [if_neg (by simp [hv'])]
      exact hu

/-- Every visible column's original index appears as a value. -/
theorem pairsAux_snd_total (cs : List Column) :
    ∀ o v i c, cs[i]? = some c → c.visible = true →
      ∃ w, (w, o + i) ∈ pairsAux cs o v := by
  induction cs with
  | nil =>
    intro o v i c h _
    simp at h
  | cons c0 cs ih =>
    intro o v i c h hvis
    cases i with
    | zero =>
      have hc : c0 = c := by simpa using h
      subst hc
      refine ⟨v, ?_⟩
      simp only [pairsAux]
      rw [if_pos hvis]
      simp
    | succ i =>
      have h' : cs[i]? = some c := by simpa using h
      have hshift : o + 1 + i = o + (i + 1) := by omega
      by_cases hv : c0.visible = true
      · obtain ⟨w, hw⟩ := ih (o + 1) (v + 1) i c h' hvis
        rw [hshift] at hw
        refine ⟨w, ?_⟩
        simp only [pairsAux]
        rw [if_pos hv]
        exact List.mem_cons_of_mem _ hw
      · have hv' : c0.visible = false := by simpa using hv
        obtain ⟨w, hw⟩ := ih (o + 1) v i c h' hvis
        rw [hshift] at hw
        refine ⟨w, ?_⟩
        simp only [pairsAux]
        rw [if_neg (by simp [hv'])]
        exact hw

/-- Membership in the swapped association list. -/
theorem mem_map_swap (l : List (ℕ × ℕ)) (w u : ℕ) :
    (u, w) ∈ l.map Prod.swap ↔ (w, u) ∈ l := by
  rw [List.mem_map]
  constructor
  · rintro ⟨⟨x, y⟩, hm, he⟩
    have hx : y = u ∧ x = w := by
      have := he
      simp [Prod.swap] at this
      exact ⟨this.1, this.2⟩
    obtain ⟨rfl, rfl⟩ := hx
    exact hm
  · intro hm
    exact ⟨(w, u), hm, rfl⟩

/-- Keys of the swapped list are the values of the original. -/
theorem map_fst_map_swap (l : List (ℕ × ℕ)) :
    (l.map Prod.swap).map Prod.fst = l.map Prod.snd := by
  rw [List.map_map]
  apply List.map_congr_left
  intro a _
  rfl

/-- C7: the two maps of `mapVisibleColumns` are mutually inverse on their
domains — each is total on its side (every visible index below the visible
count, every original index of a visible column), each lookup round-trips, and
indices outside the domains look up to `none` rather than failing. -/
theorem mapVisibleColumns_inverse (columns : List Column) :
    (∀ v o, (mapVisibleColumns columns).visibleIndexToOriginalIndex.lookup v = some o →
        (mapVisibleColumns columns).originalIndexToVisibleIndex.lookup o = some v) ∧
    (∀ o v, (mapVisibleColumns columns).originalIndexToVisibleIndex.lookup o = some v →
        (mapVisibleColumns columns).visibleIndexToOriginalIndex.lookup v = some o) ∧
    (∀ v, v < (mapVisibleColumns columns).visibleColumns.length →
        ∃ o, (mapVisibleColumns columns).visibleIndexToOriginalIndex.lookup v = some o) ∧
    (∀ o c, columns[o]? = some c → c.visible = true →
        ∃ v, (mapVisibleColumns columns).originalIndexToVisibleIndex.lookup o = some v) ∧
    (∀ v, (mapVisibleColumns columns).visibleColumns.length ≤ v →
        (mapVisibleColumns columns).visibleIndexToOriginalIndex.lookup v = none) ∧
    (∀ o, columns.length ≤ o →
        (mapVisibleColumns columns).originalIndexToVisibleIndex.lookup o = none) := by
  rw [mapVisibleColumns_eq]
  simp only
  have hfst := pairsAux_fst_nodup columns 0 0
  have hsnd : (((pairsAux columns 0 0).map Prod.swap).map Prod.fst).Nodup := by
    rw [map_fst_map_swap]
    exact pairsAux_snd_nodup columns 0 0
  have hlen : (columns.filter (fun c => c.visible)).length = countVis columns := rfl
  refine ⟨?_, ?_, ?_, ?_, ?_, ?_⟩
  · intro v o h
    have hm := (assoc_lookup_eq_some _ hfst v o).mp h
    exact (assoc_lookup_eq_some _ hsnd o v).mpr ((mem_map_swap _ v o).mpr hm)
  · intro o v h
    have hm := (mem_map_swap _ v o).mp ((assoc_lookup_eq_some _ hsnd o v).mp h)
    exact (assoc_lookup_eq_some _ hfst v o).mpr hm
  · intro v hv
    rw [hlen] at hv
    obtain ⟨u, hu⟩ := pairsAux_fst_total columns 0 0 v (Nat.zero_le v) (by omega)
    exact ⟨u, (assoc_lookup_eq_some _ hfst v u).mpr hu⟩
  · intro o c hoc hvis
    obtain ⟨w, hw⟩ := pairsAux_snd_total columns 0 0 o c hoc hvis
    rw [Nat.zero_add] at hw
    exact ⟨w, (assoc_lookup_eq_some _ hsnd o w).mpr ((mem_map_swap _ w o).mpr hw)⟩
  · intro v hv
    rw [hlen] at hv
    rw [List.lookup_eq_none_iff]
    rintro ⟨w, u⟩ hm
    have := pairsAux_mem_bounds columns 0 0 w u hm
    simp only [bne_iff_ne, ne_eq]
    intro hvw
    omega
  · intro o ho
    rw [List.lookup_eq_none_iff]
    rintro ⟨u, w⟩ hm
    have hm' := (mem_map_swap _ w u).mp (by exact hm)
    have := pairsAux_mem_bounds columns 0 0 w u hm'
    simp only [bne_iff_ne, ne_eq]
    intro hou
    omega

/-! ## Spatial grid (C1, C2) -/

/-- Membership after one insertion step of the grid build. -/
theorem gridInsert_mem (xScale yScale : ℚ → ℚ) (xCol yCol : String) (size : ℚ)
    (gridSize : ℤ) (grid : ℤ × ℤ → List DataRow) (e d : DataRow) (c : ℤ × ℤ) :
    d ∈ gridInsert xScale yScale xCol yCol size gridSize grid e c ↔
      d ∈ grid c ∨
        (d = e ∧ gridIndexOf xScale yScale xCol yCol size gridSize e = some c) := by
  unfold gridInsert gridIndexOf
  cases hx : rowNum e xCol with
  | none => simp
  | some x =>
    cases hy : rowNum e yCol with
    | none => simp
    | some y =>
      dsimp only
      by_cases hr : 0 ≤ ⌊xScale x / size * (gridSize : ℚ)⌋ ∧
          ⌊xScale x / size * (gridSize : ℚ)⌋ < gridSize ∧
          0 ≤ ⌊yScale y / size * (gridSize : ℚ)⌋ ∧
          ⌊yScale y / size * (gridSize : ℚ)⌋ < gridSize
      · rw [if_pos hr, if_pos hr]
        by_cases hc : c = (⌊xScale x / size * (gridSize : ℚ)⌋,
            ⌊yScale y / size * (gridSize : ℚ)⌋)
        · rw [if_pos hc]
          subst hc
          simp [List.mem_append]
        · rw [if_neg hc]
          simp only [Option.some.injEq]
          constructor
          · intro h
            exact Or.inl h
          · rintro (h | ⟨rfl, h2⟩)
            · exact h
            · exact absurd h2.symm hc
      · rw [if_neg hr, if_neg hr]
        simp

/-- Membership in the built grid, with the accumulator generalized. -/
theorem foldl_gridInsert_mem (xScale yScale : ℚ → ℚ) (xCol yCol : String)
    (size : ℚ) (gridSize : ℤ) (data : List DataRow) :
    ∀ (g0 : ℤ × ℤ → List DataRow) (c : ℤ × ℤ) (d : DataRow),
      d ∈ data.foldl (gridInsert xScale yScale xCol yCol size gridSize) g0 c ↔
        d ∈ g0 c ∨
          (d ∈ data ∧ gridIndexOf xScale yScale xCol yCol size gridSize d = some c) := by
  induction data with
  | nil =>
    intro g0 c d
    simp
  | cons e data ih =>
    intro g0 c d
    rw [List.foldl_cons, ih, gridInsert_mem]
    constructor
    · rintro ((h | ⟨rfl, h⟩) | ⟨hd, h⟩)
      · exact Or.inl h
      · exact Or.inr ⟨List.mem_cons_self _ _, h⟩
      · exact Or.inr ⟨List.mem_cons_of_mem _ hd, h⟩
    · rintro (h | ⟨hd, h⟩)
      · exact Or.inl (Or.inl h)
      · rcases List.mem_cons.mp hd with rfl | hd2
        · exact Or.inl (Or.inr ⟨rfl, h⟩)
        · exact Or.inr ⟨hd2, h⟩

/-- Membership in the half-open recursive range. -/
theorem mem_intRangeGo (n : ℕ) :
    ∀ (k x : ℤ), x ∈ intRangeGo k n ↔ k ≤ x ∧ x < k + n := by
  induction n with
  | zero =>
    intro k x
    simp [intRangeGo]
  | succ n ih =>
    intro k x
    simp [intRangeGo, ih]
    constructor
    · rintro (rfl | h) <;> omega
    · intro h
      by_cases hx : x = k
      · exact Or.inl hx
      · right
        omega

/-- The inclusive integer range of the brush loop. -/
theorem mem_intRange (a b x : ℤ) : x ∈ intRange a b ↔ a ≤ x ∧ x ≤ b := by
  unfold intRange
  rw [mem_intRangeGo]
  omega

/-- A brush query over the all-empty grid selects nothing. -/
theorem getPointsInBrush_empty (xScale yScale : ℚ → ℚ) (x0 y0 x1 y1 : ℚ)
    (xCol yCol : String) (size : ℚ) (gridSize : ℤ) :
    getPointsInBrush (fun _ => []) xScale yScale x0 y0 x1 y1 xCol yCol
      size gridSize = ∅ := by
  unfold getPointsInBrush
  simp

/-- The demonstration row `{__id: 0, a: 100, b: 50}` projected by the identity
scales at `size = 100` lands on floor index `20 = gridSize`, so the build loop
drops it: the grid stays entirely empty. -/
theorem demo_grid_empty :
    createSpatialGrid [⟨0, [("a", some 100), ("b", some 50)]⟩]
      (fun v => v) (fun v => v) "a" "b" 100 20 = fun _ => [] := by
  funext c
  unfold createSpatialGrid
  rw [List.foldl_cons, List.foldl_nil]
  unfold gridInsert
  have hx : rowNum ⟨0, [("a", some 100), ("b", some 50)]⟩ "a" = some 100 := rfl
  have hy : rowNum ⟨0, [("a", some 100), ("b", some 50)]⟩ "b" = some 50 := rfl
  rw [hx, hy]
  dsimp only
  rw [if_neg (by norm_num)]

/-- C2 amended: a row is placed in bucket `c` iff it is in the data, both its
numeric coercions are finite, and its floor bucket indices equal `c` and
already lie inside `[0, gridSize)` (see `gridIndexOf`); rows whose indices
fall outside that square are skipped, not clamped. -/
theorem createSpatialGrid_characterization (data : List DataRow)
    (xScale yScale : ℚ → ℚ) (xCol yCol : String) (size : ℚ) (gridSize : ℤ)
    (d : DataRow) (c : ℤ × ℤ) :
    d ∈ createSpatialGrid data xScale yScale xCol yCol size gridSize c ↔
      d ∈ data ∧ gridIndexOf xScale yScale xCol yCol size gridSize d = some c := by
  unfold createSpatialGrid
  rw [foldl_gridInsert_mem]
  simp

/-- C2 counterexample: the row `{__id: 0, a: 100, b: 50}` has both projected
screen coordinates finite under the identity scales (screen position
`(100, 50)` with `size = 100`), yet `createSpatialGrid` places it in no
bucket: its x index `floor(100/100*20) = 20` is out of range and is skipped
rather than clamped to `G-1 = 19`. -/
theorem createSpatialGrid_no_clamp_counterexample :
    (rowNum ⟨0, [("a", some 100), ("b", some 50)]⟩ "a").isSome = true ∧
    (rowNum ⟨0, [("a", some 100), ("b", some 50)]⟩ "b").isSome = true ∧
    createSpatialGrid [⟨0, [("a", some 100), ("b", some 50)]⟩]
      (fun v => v) (fun v => v) "a" "b" 100 20 = fun _ => [] :=
  ⟨rfl, rfl, demo_grid_empty⟩

end Plotalizer

namespace Plotalizer

/-! ## Brush query vs brute force (C1) -/

/-- C1 counterexample: on one row projecting to screen position `(100, 50)`
with `size = 100` and the default 20×20 grid, the brush `[99,100]×[49,50]`
selects nothing through the grid, while the exact brute-force scan selects
the row — the grid dropped the row whose floor index reached `gridSize`. -/
theorem gridQuery_ne_bruteForce_counterexample :
    getPointsInBrush
        (createSpatialGrid [⟨0, [("a", some 100), ("b", some 50)]⟩]
          (fun v => v) (fun v => v) "a" "b" 100 20)
        (fun v => v) (fun v => v) 99 49 100 50 "a" "b" 100 20 = ∅ ∧
    bruteForceFilter [⟨0, [("a", some 100), ("b", some 50)]⟩]
        (fun v => v) (fun v => v) 99 49 100 50 "a" "b" = {0} ∧
    getPointsInBrush
        (createSpatialGrid [⟨0, [("a", some 100), ("b", some 50)]⟩]
          (fun v => v) (fun v => v) "a" "b" 100 20)
        (fun v => v) (fun v => v) 99 49 100 50 "a" "b" 100 20 ≠
      bruteForceFilter [⟨0, [("a", some 100), ("b", some 50)]⟩]
        (fun v => v) (fun v => v) 99 49 100 50 "a" "b" := by
  have h1 : getPointsInBrush
      (createSpatialGrid [⟨0, [("a", some 100), ("b", some 50)]⟩]
        (fun v => v) (fun v => v) "a" "b" 100 20)
      (fun v => v) (fun v => v) 99 49 100 50 "a" "b" 100 20 = ∅ := by
    rw [demo_grid_empty]
    exact getPointsInBrush_empty _ _ _ _ _ _ _ _ _ _
  have ht : rectTest (fun v => v) (fun v => v) 99 49 100 50 "a" "b"
      ⟨0, [("a", some 100), ("b", some 50)]⟩ = some 0 := by
    unfold rectTest
    have hx : rowNum ⟨0, [("a", some 100), ("b", some 50)]⟩ "a" = some 100 := rfl
    have hy : rowNum ⟨0, [("a", some 100), ("b", some 50)]⟩ "b" = some 50 := rfl
    rw [hx, hy]
    dsimp only
    rw [if_pos (by norm_num)]
  have h2 : bruteForceFilter [⟨0, [("a", some 100), ("b", some 50)]⟩]
      (fun v => v) (fun v => v) 99 49 100 50 "a" "b" = {0} := by
    unfold bruteForceFilter
    rw [List.filterMap_cons, ht]
    rfl
  refine ⟨h1, h2, ?_⟩
  rw [h1, h2]
  decide

/-- C1 amended: for a positive cell size and grid resolution, the brush query
over the built grid returns exactly the brute-force result restricted to the
rows the grid retains (those whose floor bucket indices lie inside
`[0, gridSize)`); in particular it is always a subset of the full brute-force
result. -/
theorem getPointsInBrush_eq_bruteForce_on_grid (data : List DataRow)
    (xScale yScale : ℚ → ℚ) (x0 y0 x1 y1 : ℚ) (xCol yCol : String)
    (size : ℚ) (gridSize : ℤ) (hsize : 0 < size) (hG : 0 < gridSize) :
    getPointsInBrush (createSpatialGrid data xScale yScale xCol yCol size gridSize)
        xScale yScale x0 y0 x1 y1 xCol yCol size gridSize =
      ((data.filter (fun d =>
          (gridIndexOf xScale yScale xCol yCol size gridSize d).isSome)).filterMap
        (rectTest xScale yScale x0 y0 x1 y1 xCol yCol)).toFinset ∧
    getPointsInBrush (createSpatialGrid data xScale yScale xCol yCol size gridSize)
        xScale yScale x0 y0 x1 y1 xCol yCol size gridSize ⊆
      bruteForceFilter data xScale yScale x0 y0 x1 y1 xCol yCol := by
  have hGQ : (0 : ℚ) ≤ (gridSize : ℚ) := by exact_mod_cast hG.le
  have main : getPointsInBrush
      (createSpatialGrid data xScale yScale xCol yCol size gridSize)
      xScale yScale x0 y0 x1 y1 xCol yCol size gridSize =
      ((data.filter (fun d =>
          (gridIndexOf xScale yScale xCol yCol size gridSize d).isSome)).filterMap
        (rectTest xScale yScale x0 y0 x1 y1 xCol yCol)).toFinset := by
    apply Finset.ext
    intro i
    simp only [getPointsInBrush, List.mem_toFinset, List.mem_flatMap,
      List.mem_filterMap, List.mem_filter]
    constructor
    · rintro ⟨gx, hgx, gy, hgy, d, hd, ht⟩
      unfold createSpatialGrid at hd
      rw [foldl_gridInsert_mem] at hd
      simp only [List.not_mem_nil, false_or] at hd
      refine ⟨d, ⟨hd.1, ?_⟩, ht⟩
      rw [hd.2]
      rfl
    · rintro ⟨d, ⟨hdmem, hsome⟩, ht⟩
      obtain ⟨c, hidx⟩ := Option.isSome_iff_exists.mp hsome
      obtain ⟨gx, gy⟩ := c
      unfold gridIndexOf at hidx
      cases hxv : rowNum d xCol with
      | none =>
        rw [hxv] at hidx
        exact absurd hidx (by simp)
      | some x =>
        cases hyv : rowNum d yCol with
        | none =>
          rw [hxv, hyv] at hidx
          exact absurd hidx (by simp)
        | some y =>
          rw [hxv, hyv] at hidx
          dsimp only at hidx
          by_cases hr : 0 ≤ ⌊xScale x / size * (gridSize : ℚ)⌋ ∧
              ⌊xScale x / size * (gridSize : ℚ)⌋ < gridSize ∧
              0 ≤ ⌊yScale y / size * (gridSize : ℚ)⌋ ∧
              ⌊yScale y / size * (gridSize : ℚ)⌋ < gridSize
          · rw [if_pos hr] at hidx
            have hinj := Option.some.inj hidx
            rw [Prod.mk.injEq] at hinj
            obtain ⟨h1, h2⟩ := hinj
            subst h1
            subst h2
            have hrt : x0 ≤ xScale x ∧ xScale x ≤ x1 ∧
                y0 ≤ yScale y ∧ yScale y ≤ y1 := by
              by_contra hrt
              unfold rectTest at ht
              rw [hxv, hyv] at ht
              dsimp only at ht
              rw [if_neg hrt] at ht
              exact absurd ht (by simp)
            refine ⟨⌊xScale x / size * (gridSize : ℚ)⌋, ?_,
              ⌊yScale y / size * (gridSize : ℚ)⌋, ?_, d, ?_, ht⟩
            · rw [mem_intRange]
              constructor
              · exact max_le hr.1 (Int.floor_le_floor
                  (mul_le_mul_of_nonneg_right
                    ((div_le_div_iff_of_pos_right hsize).mpr hrt.1) hGQ))
              · exact le_min (by omega)
                  (le_trans (Int.floor_le_floor
                    (mul_le_mul_of_nonneg_right
                      ((div_le_div_iff_of_pos_right hsize).mpr hrt.2.1) hGQ))
                    (Int.floor_le_ceil _))
            · rw [mem_intRange]
              constructor
              · exact max_le hr.2.2.1 (Int.floor_le_floor
                  (mul_le_mul_of_nonneg_right
                    ((div_le_div_iff_of_pos_right hsize).mpr hrt.2.2.1) hGQ))
              · exact le_min (by omega)
                  (le_trans (Int.floor_le_floor
                    (mul_le_mul_of_nonneg_right
                      ((div_le_div_iff_of_pos_right hsize).mpr hrt.2.2.2) hGQ))
                    (Int.floor_le_ceil _))
            · unfold createSpatialGrid
              rw [foldl_gridInsert_mem]
              refine Or.inr ⟨hdmem, ?_⟩
              unfold gridIndexOf
              rw [hxv, hyv]
              dsimp only
              rw [if_pos hr]
          · rw [if_neg hr] at hidx
            exact absurd hidx (by simp)
  refine ⟨main, ?_⟩
  intro i hi
  rw [main] at hi
  unfold bruteForceFilter
  simp only [List.mem_toFinset, List.mem_filterMap] at hi ⊢
  obtain ⟨d, hd, ht⟩ := hi
  exact ⟨d, (List.mem_filter.mp hd).1, ht⟩

/-- Witness for C1's amended claim at the counterexample's concrete instance
(`size = 100 > 0`, default grid resolution `20 > 0`). -/
theorem getPointsInBrush_eq_bruteForce_on_grid_witness :
    getPointsInBrush
        (createSpatialGrid [⟨0, [("a", some 100), ("b", some 50)]⟩]
          (fun v => v) (fun v => v) "a" "b" 100 20)
        (fun v => v) (fun v => v) 99 49 100 50 "a" "b" 100 20 =
      (([⟨0, [("a", some 100), ("b", some 50)]⟩].filter
          (fun d => (gridIndexOf (fun v => v) (fun v => v) "a" "b" 100 20 d).isSome)).filterMap
        (rectTest (fun v => v) (fun v => v) 99 49 100 50 "a" "b")).toFinset :=
  (getPointsInBrush_eq_bruteForce_on_grid
    [⟨0, [("a", some 100), ("b", some 50)]⟩]
    (fun v => v) (fun v => v) 99 49 100 50 "a" "b" 100 20
    (by norm_num) (by norm_num)).1

end Plotalizer

namespace Plotalizer

/-! ## Statistics normalization (C5) -/

/-- Lookup in a map-built association list. -/
theorem lookup_map_self (f : String → ColumnStats) (names : List String) :
    ∀ name, name ∈ names →
      (names.map (fun n => (n, f n))).lookup name = some (f name) := by
  induction names with
  | nil =>
    intro name h
    simp at h
  | cons n names ih =>
    intro name h
    rw [List.map_cons, List.lookup_cons]
    by_cases hn : name = n
    · subst hn
      simp
    · have hbeq : (name == n) = false := by simpa using hn
      rw [hbeq]
      simp only [cond_false]
      rcases List.mem_cons.mp h with h1 | h1
      · exact absurd h1 hn
      · exact ih name h1

/-- The scan skips rows with non-finite coercions: it folds exactly over the
finite values. -/
theorem foldl_skip_none (name : String) (rows : List DataRow) :
    ∀ acc, rows.foldl (fun acc row => match rowNum row name with
        | none => acc
        | some v => scanStep acc v) acc =
      (rows.filterMap (fun r => rowNum r name)).foldl scanStep acc := by
  induction rows with
  | nil =>
    intro acc
    rfl
  | cons r rows ih =>
    intro acc
    rw [List.foldl_cons, List.filterMap_cons]
    cases hx : rowNum r name with
    | none =>
      dsimp only
      exact ih acc
    | some v =>
      dsimp only
      rw [List.foldl_cons]
      exact ih (scanStep acc v)

/-- `rowScan` in terms of the finite values of the column. -/
theorem rowScan_eq (rows : List DataRow) (name : String) :
    rowScan rows name = (finiteVals rows name).foldl scanStep (none, none, none) := by
  unfold rowScan finiteVals
  exact foldl_skip_none name rows (none, none, none)

/-- The three running statistics evolve independently. -/
theorem foldl_scanStep_decompose (l : List ℚ) :
    ∀ acc : Option ℚ × Option ℚ × Option ℚ,
      l.foldl scanStep acc =
        (l.foldl updMin acc.1, l.foldl updMax acc.2.1, l.foldl updPos acc.2.2) := by
  induction l with
  | nil =>
    intro acc
    rfl
  | cons v l ih =>
    intro acc
    rw [List.foldl_cons, List.foldl_cons, List.foldl_cons, List.foldl_cons, ih]
    rfl

/-- Over an all-`v` list the running minimum is `v`. -/
theorem foldl_updMin_const (v : ℚ) : ∀ l : List ℚ, (∀ w ∈ l, w = v) →
    l.foldl updMin (some v) = some v ∧ (l ≠ [] → l.foldl updMin none = some v) := by
  intro l
  induction l with
  | nil =>
    intro _
    exact ⟨rfl, fun h => absurd rfl h⟩
  | cons w l ih =>
    intro hall
    have hw : w = v := hall w (List.mem_cons_self _ _)
    subst hw
    have hrest : ∀ u ∈ l, u = w := fun u hu => hall u (List.mem_cons_of_mem _ hu)
    have hstep : updMin (some w) w = some w := by
      unfold updMin
      dsimp only
      rw [if_neg (lt_irrefl w)]
    constructor
    · rw [List.foldl_cons, hstep]
      exact (ih hrest).1
    · intro _
      rw [List.foldl_cons]
      have hnone : updMin none w = some w := rfl
      rw [hnone]
      exact (ih hrest).1

/-- Over an all-`v` list the running maximum is `v`. -/
theorem foldl_updMax_const (v : ℚ) : ∀ l : List ℚ, (∀ w ∈ l, w = v) →
    l.foldl updMax (some v) = some v ∧ (l ≠ [] → l.foldl updMax none = some v) := by
  intro l
  induction l with
  | nil =>
    intro _
    exact ⟨rfl, fun h => absurd rfl h⟩
  | cons w l ih =>
    intro hall
    have hw : w = v := hall w (List.mem_cons_self _ _)
    subst hw
    have hrest : ∀ u ∈ l, u = w := fun u hu => hall u (List.mem_cons_of_mem _ hu)
    have hstep : updMax (some w) w = some w := by
      unfold updMax
      dsimp only
      rw [if_neg (lt_irrefl w)]
    constructor
    · rw [List.foldl_cons, hstep]
      exact (ih hrest).1
    · intro _
      rw [List.foldl_cons]
      have hnone : updMax none w = some w := rfl
      rw [hnone]
      exact (ih hrest).1

/-- The running maximum, when set, is one of the scanned values. -/
theorem foldl_updMax_mem : ∀ (l : List ℚ) (acc : Option ℚ) (m : ℚ),
    l.foldl updMax acc = some m → acc = some m ∨ m ∈ l := by
  intro l
  induction l with
  | nil =>
    intro acc m h
    exact Or.inl h
  | cons v l ih =>
    intro acc m h
    rw [List.foldl_cons] at h
    rcases ih (updMax acc v) m h with hacc | hm
    · cases acc with
      | none =>
        have hv : v = m := Option.some.inj hacc
        exact Or.inr (List.mem_cons.mpr (Or.inl hv.symm))
      | some a =>
        unfold updMax at hacc
        dsimp only at hacc
        by_cases hva : v > a
        · rw [if_pos hva] at hacc
          exact Or.inr (List.mem_cons.mpr (Or.inl (Option.some.inj hacc).symm))
        · rw [if_neg hva] at hacc
          exact Or.inl hacc
    · exact Or.inr (List.mem_cons_of_mem _ hm)

/-- With no positive value the running positive minimum never moves. -/
theorem foldl_updPos_nonpos : ∀ (l : List ℚ) (acc : Option ℚ),
    (∀ w ∈ l, w ≤ 0) → l.foldl updPos acc = acc := by
  intro l
  induction l with
  | nil =>
    intro acc _
    rfl
  | cons v l ih =>
    intro acc hall
    rw [List.foldl_cons]
    have hv : v ≤ 0 := hall v (List.mem_cons_self _ _)
    have hstep : updPos acc v = acc := by
      unfold updPos
      rw [if_neg (not_lt.mpr hv)]
    rw [hstep]
    exact ih _ (fun u hu => hall u (List.mem_cons_of_mem _ hu))

/-- Over an all-`v` list with `v` positive the positive minimum is `v`. -/
theorem foldl_updPos_const (v : ℚ) (hv : 0 < v) : ∀ l : List ℚ, (∀ w ∈ l, w = v) →
    l.foldl updPos (some v) = some v ∧ (l ≠ [] → l.foldl updPos none = some v) := by
  intro l
  induction l with
  | nil =>
    intro _
    exact ⟨rfl, fun h => absurd rfl h⟩
  | cons w l ih =>
    intro hall
    have hw : w = v := hall w (List.mem_cons_self _ _)
    subst hw
    have hrest : ∀ u ∈ l, u = w := fun u hu => hall u (List.mem_cons_of_mem _ hu)
    have hstep : updPos (some w) w = some w := by
      unfold updPos
      rw [if_pos hv]
      dsimp only
      rw [if_neg (lt_irrefl w)]
    have hnone : updPos none w = some w := by
      unfold updPos
      rw [if_pos hv]
    constructor
    · rw [List.foldl_cons, hstep]
      exact (ih hrest).1
    · intro _
      rw [List.foldl_cons, hnone]
      exact (ih hrest).1

end Plotalizer

namespace Plotalizer

/-- A column with no finite values normalizes to `{0, 1, 1}`. -/
theorem colStat_empty (rows : List DataRow) (name : String)
    (h : finiteVals rows name = []) : colStat rows name = ⟨0, 1, 1⟩ := by
  unfold colStat
  rw [rowScan_eq, h]
  norm_num

/-- A column whose finite values are all `v` is padded to
`{v-1, v+1}`, with `minPositive = v` when `v` is positive and `1` otherwise. -/
theorem colStat_const (rows : List DataRow) (name : String) (v : ℚ)
    (hne : finiteVals rows name ≠ []) (hall : ∀ w ∈ finiteVals rows name, w = v) :
    colStat rows name = ⟨v - 1, v + 1, if v > 0 then v else 1⟩ := by
  have hmin := (foldl_updMin_const v (finiteVals rows name) hall).2 hne
  have hmax := (foldl_updMax_const v (finiteVals rows name) hall).2 hne
  unfold colStat
  rw [rowScan_eq, foldl_scanStep_decompose, hmin, hmax]
  by_cases hv : v > 0
  · have hpos := (foldl_updPos_const v hv (finiteVals rows name) hall).2 hne
    rw [hpos]
    dsimp only
    rw [if_pos rfl, if_pos hv]
  · have hzero : ∀ w ∈ finiteVals rows name, w ≤ 0 := fun w hw => by
      rw [hall w hw]
      exact not_lt.mp hv
    have hpos := foldl_updPos_nonpos (finiteVals rows name) none hzero
    rw [hpos]
    dsimp only
    rw [if_pos rfl, if_neg hv]
    norm_num

/-- A column with no positive finite value gets `minPositive = 1` (never the
`1e-9` epsilon, which is dead code in this function). -/
theorem colStat_noPos (rows : List DataRow) (name : String)
    (hnp : ∀ w ∈ finiteVals rows name, w ≤ 0) :
    (colStat rows name).minPositive = 1 := by
  unfold colStat
  rw [rowScan_eq, foldl_scanStep_decompose,
    foldl_updPos_nonpos (finiteVals rows name) none hnp]
  cases hm : (finiteVals rows name).foldl updMax none with
  | none =>
    dsimp only
    split <;> norm_num
  | some m =>
    have hmem := foldl_updMax_mem (finiteVals rows name) none m hm
    rcases hmem with h | h
    · exact absurd h (by simp)
    · have hm0 : m ≤ 0 := hnp m h
      dsimp only
      rw [if_neg (not_lt.mpr hm0)]
      split <;> norm_num

end Plotalizer

namespace Plotalizer

/-- C5 amended: the computed `ColumnStats` are normalized — a column with no
finite numeric values yields `{0, 1, 1}`; a column whose scan ends with
`min == max == v` is padded to `{v-1, v+1}` (with `minPositive = v` for
positive `v` and `1` otherwise); and a column with no positive finite value
gets `minPositive = 1` — the `max > 0 ? max : 1` fallback, never the `1e-9`
epsilon, which is unreachable in this function. -/
theorem computeStatsForSubset_normalization (rows : List DataRow)
    (names : List String) (name : String) (hmem : name ∈ names)
    (s : ColumnStats)
    (hs : (computeStatsForSubset rows names).lookup name = some s) :
    (finiteVals rows name = [] → s = ⟨0, 1, 1⟩) ∧
    (∀ v : ℚ, finiteVals rows name ≠ [] → (∀ w ∈ finiteVals rows name, w = v) →
      s = ⟨v - 1, v + 1, if v > 0 then v else 1⟩) ∧
    ((∀ w ∈ finiteVals rows name, w ≤ 0) → s.minPositive = 1) := by
  unfold computeStatsForSubset at hs
  by_cases hc : rows.length = 0 ∨ names.length = 0
  · rw [if_pos hc] at hs
    rw [lookup_map_self (fun _ => (⟨0, 1, 1⟩ : ColumnStats)) names name hmem] at hs
    have hseq := Option.some.inj hs
    subst hseq
    have hrows : rows = [] := by
      rcases hc with h | h
      · exact List.length_eq_zero.mp h
      · rw [List.length_eq_zero] at h
        subst h
        simp at hmem
    subst hrows
    refine ⟨fun _ => rfl, ?_, fun _ => rfl⟩
    intro v hne _
    exact absurd rfl hne
  · rw [if_neg hc] at hs
    rw [lookup_map_self (fun n => colStat rows n) names name hmem] at hs
    have hseq := Option.some.inj hs
    subst hseq
    exact ⟨colStat_empty rows name,
      fun v hne hall => colStat_const rows name v hne hall,
      colStat_noPos rows name⟩

/-- Concrete evaluation: the single-row dataset `{a: -5}` yields stats
`{min: -6, max: -4, minPositive: 1}`. -/
theorem demo_stats_eval :
    (computeStatsForSubset [⟨0, [("a", some (-5))]⟩] ["a"]).lookup "a" =
      some ⟨-6, -4, 1⟩ := by
  have hfv : finiteVals [⟨0, [("a", some (-5))]⟩] "a" = [-5] := rfl
  unfold computeStatsForSubset
  rw [if_neg (by norm_num)]
  rw [lookup_map_self (fun n => colStat [⟨0, [("a", some (-5))]⟩] n) ["a"] "a"
    (by simp)]
  rw [colStat_const [⟨0, [("a", some (-5))]⟩] "a" (-5)
    (by rw [hfv]; simp)
    (by rw [hfv]; intro w hw; simpa using hw)]
  norm_num

/-- C5 counterexample: for the dataset `{a: -5}` (a single negative value, so
no positive finite value exists and `max = -5` is not positive) the computed
`minPositive` is `1`, not the claim's "small positive epsilon" (`1e-9`). -/
theorem computeStatsForSubset_eps_counterexample :
    (computeStatsForSubset [⟨0, [("a", some (-5))]⟩] ["a"]).lookup "a" =
      some ⟨-6, -4, 1⟩ ∧
    (computeStatsForSubset [⟨0, [("a", some (-5))]⟩] ["a"]).lookup "a" ≠
      some ⟨-6, -4, 1 / 1000000000⟩ := by
  refine ⟨demo_stats_eval, ?_⟩
  rw [demo_stats_eval]
  intro h
  have h1 := Option.some.inj h
  have h2 : (1 : ℚ) = 1 / 1000000000 := congrArg ColumnStats.minPositive h1
  norm_num at h2

/-- Witness for C5's amended claim at the dataset `{a: -5}`. -/
theorem computeStatsForSubset_normalization_witness :
    (computeStatsForSubset [⟨0, [("a", some (-5))]⟩] ["a"]).lookup "a" =
      some ⟨-6, -4, 1⟩ ∧
    (⟨-6, -4, 1⟩ : ColumnStats).minPositive = 1 :=
  ⟨demo_stats_eval,
   (computeStatsForSubset_normalization [⟨0, [("a", some (-5))]⟩] ["a"] "a"
      (by simp) ⟨-6, -4, 1⟩ demo_stats_eval).2.2
     (by
       intro w hw
       rw [show finiteVals [⟨0, [("a", some (-5))]⟩] "a" = [-5] from rfl] at hw
       rw [show w = -5 by simpa using hw]
       norm_num)⟩

end Plotalizer

namespace Plotalizer

/-! ## Render cache key (C4) -/

/-- C4 counterexample: at a concrete cell (`columns a×b`, linear/log scales,
highlight mode, two rows with ids 0 and 2, empty selection, cell pixel size
150) the key the component computes is the seven-component string — it is not
the spec's eight-component string ending in the cell pixel size. -/
theorem renderKey_missing_size_counterexample :
    cellRenderKey ⟨"a", ScaleType.linear, true⟩ ⟨"b", ScaleType.log, true⟩
        FilterMode.highlight [⟨0, []⟩, ⟨2, []⟩] [] 150 =
      "a-b-linear-log-highlight-2-0-2-none" ∧
    cellRenderKey ⟨"a", ScaleType.linear, true⟩ ⟨"b", ScaleType.log, true⟩
        FilterMode.highlight [⟨0, []⟩, ⟨2, []⟩] [] 150 ≠
      specRenderKey ⟨"a", ScaleType.linear, true⟩ ⟨"b", ScaleType.log, true⟩
        FilterMode.highlight "2-0-2" "none" 150 := by
  constructor
  · rfl
  · decide

/-- C4 amended: the composite render key is exactly the seven-component
string `<xName>-<yName>-<xScale>-<yScale>-<mode>-<dataHash>-<selectionHash>`,
with no trailing cell pixel size — it is independent of the cell pixel
size. -/
theorem cellRenderKey_format (colX colY : Column) (filterMode : FilterMode)
    (data : List DataRow) (selectedIds : List ℕ) (size size2 : ℚ) :
    cellRenderKey colX colY filterMode data selectedIds size =
      colX.name ++ "-" ++ colY.name ++ "-" ++ colX.scale.str ++ "-" ++
        colY.scale.str ++ "-" ++ filterMode.str ++ "-" ++ dataStateHash data ++
        "-" ++ computeSelectedStateHash selectedIds ∧
    cellRenderKey colX colY filterMode data selectedIds size =
      cellRenderKey colX colY filterMode data selectedIds size2 :=
  ⟨rfl, rfl⟩

end Plotalizer
